import Mathlib

namespace AppStoreKw

/-- Shape of a successful response of `asoAnalyzer.analyzeKeyword(keyword)` as consumed by
`analyzeKeywordParallel` (fields read at `src/unnamed/part_001:113-118`). The ASO scorer itself
is an external collaborator; its responses are opaque data here. -/
structure AsoAnalysis where
  keyword : String
  trafficScore : Int
  difficultyScore : Int
  competitionLevel : String
  trafficLevel : String
  recommendation : String
deriving DecidableEq, Repr

/-- A scorer capability: `analyzeKeyword` either resolves with an analysis (`Except.ok`)
or rejects with an error message (`Except.error`), the two outcomes of the awaited
promise in the source. -/
def Scorer : Type := String → Except String AsoAnalysis

/-- One entry of the orchestrator's output (`src/unnamed/part_001:112-130`).
A successful analysis carries no `error` field, modelled as `none`. -/
structure KeywordResult where
  keyword : String
  trafficScore : Int
  difficultyScore : Int
  competitionLevel : String
  trafficLevel : String
  recommendation : String
  error : Option String
deriving DecidableEq, Repr

/-- `analyzeKeywordParallel` (`src/unnamed/part_001:108-132`): score one keyword; a rejection of
the scoring call is caught locally and converted into the degraded placeholder result. -/
def analyzeKeywordParallel (keyword : String) (asoAnalyzer : Scorer) : KeywordResult :=
  match asoAnalyzer keyword with
  | .ok analysis =>
    { keyword := analysis.keyword
      trafficScore := analysis.trafficScore
      difficultyScore := analysis.difficultyScore
      competitionLevel := analysis.competitionLevel
      trafficLevel := analysis.trafficLevel
      recommendation := analysis.recommendation
      error := none }
  | .error e =>
    { keyword := keyword
      trafficScore := 0
      difficultyScore := 0
      competitionLevel := "unknown"
      trafficLevel := "unknown"
      recommendation := "analysis_failed"
      error := some e }

/-- The batch partition produced by the loop of `processKeywordsBatch`
(`src/unnamed/part_001:144-145`): `keywords.slice(i, i + batchSize)` for
`i = 0, batchSize, 2*batchSize, …`. For `batchSize = 0` the source loop never advances
(see `processLoopFuel`); this equation compiler case is unreachable under the program's
`1 ≤ batchSize` precondition. -/
def batches : Nat → List α → List (List α)
  | _, [] => []
  | 0, _ :: _ => []
  | b + 1, a :: l => (a :: l.take b) :: batches (b + 1) (l.drop b)
termination_by _ l => l.length
decreasing_by
  simp only [List.length_cons, List.length_drop]
  omega

/-- `processKeywordsBatch` (`src/unnamed/part_001:141-162`): each batch is mapped through
`analyzeKeywordParallel` (the `Promise.all` of the per-keyword calls; the resolved array of
`Promise.all` is in the order the calls were issued, not completion order) and the batch
results are appended (`results.push(...batchResults)`) in loop order. -/
def processKeywordsBatch (keywords : List String) (asoAnalyzer : Scorer)
    (batchSize : Nat := 3) : List KeywordResult :=
  (batches batchSize keywords).flatMap
    (fun batch => batch.map (fun keyword => analyzeKeywordParallel keyword asoAnalyzer))

/-- Number of inter-batch delay suspensions performed by `processKeywordsBatch`
(`src/unnamed/part_001:155-158`): after a batch starting at index `i`, the loop waits
exactly when `i + batchSize < keywords.length`, i.e. when keywords remain after this
batch. -/
def interBatchDelays : Nat → List α → Nat
  | _, [] => 0
  | 0, _ :: _ => 0
  | b + 1, _ :: l =>
    (if (l.drop b).isEmpty then 0 else 1) + interBatchDelays (b + 1) (l.drop b)
termination_by _ l => l.length
decreasing_by
  simp only [List.length_cons, List.length_drop]
  omega

/-- The sequence of keywords passed to `asoAnalyzer.analyzeKeyword`, in issue order:
each `analyzeKeywordParallel` performs exactly one scoring call (`src/unnamed/part_001:111`),
and its catch branch performs none, so the trace is one entry per batch element. -/
def scorerCallTrace (keywords : List String) (batchSize : Nat) : List String :=
  (batches batchSize keywords).flatMap (fun batch => batch.map (fun keyword => keyword))

theorem batches_succ_cons (b : Nat) (a : α) (l : List α) :
    batches (b + 1) (a :: l) = (a :: l.take b) :: batches (b + 1) (l.drop b) := by
  simp [batches]

theorem batches_nil (bs : Nat) : batches bs ([] : List α) = [] := by
  simp [batches]

theorem batches_flatten : ∀ (bs : Nat) (l : List α), 1 ≤ bs → (batches bs l).flatten = l := by
  intro bs l
  induction bs, l using batches.induct with
  | case1 x => intro _; simp [batches]
  | case2 head tail => intro h; exfalso; omega
  | case3 b a l ih =>
    intro _
    rw [batches_succ_cons, List.flatten_cons, ih (by omega)]
    simp [List.cons_append, List.take_append_drop]

theorem batches_ne_nil (bs : Nat) (l : List α) (hb : 1 ≤ bs) (hl : l ≠ []) :
    batches bs l ≠ [] := by
  match bs, l with
  | 0, _ => exact absurd hb (by omega)
  | _ + 1, [] => exact absurd rfl hl
  | b + 1, a :: t => rw [batches_succ_cons]; simp

theorem batches_length : ∀ (bs : Nat) (l : List α), 1 ≤ bs →
    (batches bs l).length = (l.length + bs - 1) / bs := by
  intro bs l
  induction bs, l using batches.induct with
  | case1 x =>
    intro h
    have hx : (x - 1) / x = 0 := Nat.div_eq_of_lt (by omega)
    simp [batches, hx]
  | case2 head tail => intro h; exfalso; omega
  | case3 b a l ih =>
    intro _
    rw [batches_succ_cons]
    simp only [List.length_cons]
    rw [ih (by omega)]
    simp only [List.length_drop, Nat.succ_eq_add_one]
    rcases le_or_lt l.length b with hn | hn
    · have h1 : l.length - b = 0 := by omega
      have h2 : (0 + (b + 1) - 1) / (b + 1) = 0 := Nat.div_eq_of_lt (by omega)
      have h3 : (l.length + 1 + (b + 1) - 1) / (b + 1) = 1 :=
        Nat.div_eq_of_lt_le (by omega) (by omega)
      rw [h1, h2, h3]
    · have h1 : l.length - b + (b + 1) - 1 = l.length := by omega
      have h2 : l.length + 1 + (b + 1) - 1 = l.length - (b + 1) + (b + 1) + (b + 1) := by
        omega
      rw [h1, h2, Nat.add_div_right _ (by omega), Nat.add_div_right _ (by omega)]
      conv_lhs => rw [show l.length = l.length - (b + 1) + (b + 1) by omega]
      rw [Nat.add_div_right _ (by omega)]

theorem batches_mem : ∀ (bs : Nat) (l : List α), 1 ≤ bs →
    ∀ c ∈ batches bs l, c ≠ [] ∧ c.length ≤ bs := by
  intro bs l
  induction bs, l using batches.induct with
  | case1 x => intro _ c hc; simp [batches] at hc
  | case2 head tail => intro h; exfalso; omega
  | case3 b a l ih =>
    intro _ c hc
    rw [batches_succ_cons] at hc
    rcases List.mem_cons.mp hc with rfl | hc
    · refine ⟨by simp, ?_⟩
      simp only [List.length_cons, List.length_take]
      omega
    · exact ih (by omega) c hc

theorem batches_dropLast : ∀ (bs : Nat) (l : List α), 1 ≤ bs →
    ∀ c ∈ (batches bs l).dropLast, c.length = bs := by
  intro bs l
  induction bs, l using batches.induct with
  | case1 x => intro _ c hc; simp [batches] at hc
  | case2 head tail => intro h; exfalso; omega
  | case3 b a l ih =>
    intro _ c hc
    rw [batches_succ_cons] at hc
    by_cases hrest : l.drop b = []
    · rw [hrest, batches_nil] at hc
      simp at hc
    · rw [List.dropLast_cons_of_ne_nil (batches_ne_nil _ _ (by omega) hrest)] at hc
      rcases List.mem_cons.mp hc with rfl | hc
      · have hb : b < l.length := by
          by_contra hb
          exact hrest (List.drop_eq_nil_of_le (by omega))
        simp only [List.length_cons, List.length_take]
        omega
      · exact ih (by omega) c hc

theorem interBatchDelays_eq : ∀ (bs : Nat) (l : List α), 1 ≤ bs →
    interBatchDelays bs l = (batches bs l).length - 1 := by
  intro bs l
  induction bs, l using batches.induct with
  | case1 x => intro _; simp [interBatchDelays, batches]
  | case2 head tail => intro h; exfalso; omega
  | case3 b a l ih =>
    intro _
    rw [batches_succ_cons]
    simp only [interBatchDelays, List.length_cons]
    by_cases hrest : l.drop b = []
    · simp [hrest, List.isEmpty_iff, batches_nil, interBatchDelays]
    · have hne : batches (b + 1) (l.drop b) ≠ [] := batches_ne_nil _ _ (by omega) hrest
      have hlen : 1 ≤ (batches (b + 1) (l.drop b)).length := by
        rcases List.exists_cons_of_ne_nil hne with ⟨c, cs, hcs⟩
        simp [hcs]
      rw [ih (by omega)]
      have hcond : ¬((l.drop b).isEmpty = true) := by
        simpa [List.isEmpty_iff] using hrest
      rw [if_neg hcond]
      omega

/-- Helper: flat-mapping a per-element function over every batch equals mapping it over the
flattened batch list. -/
theorem flatMap_map_eq_map_flatten (f : α → β) :
    ∀ (B : List (List α)), B.flatMap (fun c => c.map f) = B.flatten.map f := by
  intro B
  induction B with
  | nil => rfl
  | cons c B ih => rw [List.flatMap_cons, List.flatten_cons, List.map_append, ih]

theorem processKeywordsBatch_eq_map (keywords : List String) (asoAnalyzer : Scorer)
    (batchSize : Nat) (hb : 1 ≤ batchSize) :
    processKeywordsBatch keywords asoAnalyzer batchSize =
      keywords.map (fun keyword => analyzeKeywordParallel keyword asoAnalyzer) := by
  unfold processKeywordsBatch
  rw [flatMap_map_eq_map_flatten, batches_flatten _ _ hb]

theorem scorerCallTrace_eq (keywords : List String) (batchSize : Nat) (hb : 1 ≤ batchSize) :
    scorerCallTrace keywords batchSize = keywords := by
  unfold scorerCallTrace
  rw [flatMap_map_eq_map_flatten, batches_flatten _ _ hb, List.map_id']

/-- `Array.prototype.slice(i, j)` for in-range non-negative indices, as used in
`keywords.slice(i, i + batchSize)` (`src/unnamed/part_001:145`). -/
def jsSlice (i j : Nat) (l : List α) : List α := (l.drop i).take (j - i)

/-- The `for (let i = 0; i < keywords.length; i += batchSize)` loop of
`processKeywordsBatch`, step-indexed by a fuel bound: `none` means the given number of
loop iterations did not reach termination. For `batchSize = 0` the index `i` never
advances, which is how the source diverges on a non-empty list. -/
def processLoopFuel (keywords : List String) (asoAnalyzer : Scorer) (batchSize : Nat) :
    Nat → Nat → List KeywordResult → Option (List KeywordResult)
  | 0, _, _ => none
  | fuel + 1, i, acc =>
    if i < keywords.length then
      processLoopFuel keywords asoAnalyzer batchSize fuel (i + batchSize)
        (acc ++ (jsSlice i (i + batchSize) keywords).map
          (fun keyword => analyzeKeywordParallel keyword asoAnalyzer))
    else
      some acc

theorem processLoopFuel_succ (keywords : List String) (asoAnalyzer : Scorer)
    (batchSize fuel i : Nat) (acc : List KeywordResult) :
    processLoopFuel keywords asoAnalyzer batchSize (fuel + 1) i acc =
      if i < keywords.length then
        processLoopFuel keywords asoAnalyzer batchSize fuel (i + batchSize)
          (acc ++ (jsSlice i (i + batchSize) keywords).map
            (fun keyword => analyzeKeywordParallel keyword asoAnalyzer))
      else
        some acc := rfl

theorem processKeywordsBatch_nil (asoAnalyzer : Scorer) (batchSize : Nat) :
    processKeywordsBatch [] asoAnalyzer batchSize = [] := by
  unfold processKeywordsBatch
  rw [batches_nil]
  rfl

theorem processKeywordsBatch_step (l : List String) (asoAnalyzer : Scorer) (b : Nat)
    (hl : l ≠ []) :
    processKeywordsBatch l asoAnalyzer (b + 1) =
      (l.take (b + 1)).map (fun keyword => analyzeKeywordParallel keyword asoAnalyzer) ++
        processKeywordsBatch (l.drop (b + 1)) asoAnalyzer (b + 1) := by
  obtain ⟨a, t, rfl⟩ := List.exists_cons_of_ne_nil hl
  unfold processKeywordsBatch
  rw [batches_succ_cons, List.flatMap_cons]
  simp [List.take_succ_cons, List.drop_succ_cons]

theorem processLoopFuel_spec (keywords : List String) (asoAnalyzer : Scorer) (b : Nat) :
    ∀ (fuel i : Nat) (acc : List KeywordResult),
      keywords.length ≤ i + fuel * (b + 1) →
      processLoopFuel keywords asoAnalyzer (b + 1) (fuel + 1) i acc =
        some (acc ++ processKeywordsBatch (keywords.drop i) asoAnalyzer (b + 1)) := by
  intro fuel
  induction fuel with
  | zero =>
    intro i acc h
    have hi : ¬ i < keywords.length := by omega
    have hdrop : keywords.drop i = [] := List.drop_eq_nil_of_le (by omega)
    simp [processLoopFuel, hi, hdrop, processKeywordsBatch_nil]
  | succ fuel ih =>
    intro i acc h
    by_cases hi : i < keywords.length
    · rw [processLoopFuel_succ, if_pos hi]
      rw [ih (i + (b + 1)) _ (by rw [Nat.succ_mul] at h; omega)]
      have hd : keywords.drop i ≠ [] := by
        intro hcon
        have := List.drop_eq_nil_iff.mp hcon
        omega
      rw [processKeywordsBatch_step _ _ _ hd]
      have hslice : jsSlice i (i + (b + 1)) keywords = (keywords.drop i).take (b + 1) := by
        unfold jsSlice
        congr 1
        omega
      have hdd : keywords.drop (i + (b + 1)) = (keywords.drop i).drop (b + 1) := by
        rw [List.drop_drop]
      rw [hslice, hdd, List.append_assoc]
    · have hdrop : keywords.drop i = [] := List.drop_eq_nil_of_le (by omega)
      rw [processLoopFuel_succ, if_neg hi, hdrop, processKeywordsBatch_nil,
        List.append_nil]

theorem processLoopFuel_zero_width (keywords : List String) (asoAnalyzer : Scorer)
    (hne : keywords ≠ []) :
    ∀ (fuel : Nat) (acc : List KeywordResult),
      processLoopFuel keywords asoAnalyzer 0 fuel 0 acc = none := by
  intro fuel
  induction fuel with
  | zero => intro acc; rfl
  | succ fuel ih =>
    intro acc
    have hlen : 0 < keywords.length := List.length_pos.mpr hne
    simp only [processLoopFuel, if_pos hlen, Nat.add_zero]
    exact ih _

/-- The comparator passed to `results.sort` (`src/unnamed/part_001:194-199`):
`b.trafficScore - a.trafficScore` when the traffic scores differ (higher traffic first),
otherwise `a.difficultyScore - b.difficultyScore` (lower difficulty first). -/
def keywordCompare (a b : KeywordResult) : Int :=
  if b.trafficScore ≠ a.trafficScore then b.trafficScore - a.trafficScore
  else a.difficultyScore - b.difficultyScore

/-- `a` may be placed no later than `b` under the comparator: `keywordCompare a b ≤ 0`. -/
def rankLE (a b : KeywordResult) : Bool := decide (keywordCompare a b ≤ 0)

/-- The Result Ranker (`src/unnamed/part_001:193-199`). ECMAScript `Array.prototype.sort`
is required to be stable, and with the consistent comparator `keywordCompare` its result
is the unique stable order; `List.mergeSort` over `rankLE` is that denotation. -/
def rankResults (results : List KeywordResult) : List KeywordResult :=
  results.mergeSort rankLE

/-- `results.sort(...)` sorts its array in place and returns a reference to that same
array. The first component models the sequence the expression evaluates to; the second
models the contents of the caller's `results` array after the call. -/
def rankResultsCall (results : List KeywordResult) :
    List KeywordResult × List KeywordResult :=
  (rankResults results, rankResults results)

theorem rankLE_iff (a b : KeywordResult) :
    rankLE a b = true ↔
      (b.trafficScore < a.trafficScore ∨
        (b.trafficScore = a.trafficScore ∧ a.difficultyScore ≤ b.difficultyScore)) := by
  simp only [rankLE, keywordCompare, decide_eq_true_eq]
  split <;> omega

theorem rankLE_trans (a b c : KeywordResult) (hab : rankLE a b = true)
    (hbc : rankLE b c = true) : rankLE a c = true := by
  rw [rankLE_iff] at *
  omega

theorem rankLE_total (a b : KeywordResult) : (rankLE a b || rankLE b a) = true := by
  rw [Bool.or_eq_true, rankLE_iff, rankLE_iff]
  omega

theorem rankResults_perm (results : List KeywordResult) :
    (rankResults results).Perm results :=
  List.mergeSort_perm results rankLE

theorem rankResults_pairwise (results : List KeywordResult) :
    List.Pairwise (fun a b => rankLE a b = true) (rankResults results) :=
  List.sorted_mergeSort (fun a b c => rankLE_trans a b c) rankLE_total results

theorem rankResults_idem (results : List KeywordResult) :
    rankResults (rankResults results) = rankResults results :=
  List.mergeSort_of_sorted (rankResults_pairwise results)

theorem rankResults_stable (results tied : List KeywordResult)
    (hsub : tied.Sublist results)
    (htied : tied.Pairwise (fun a b => rankLE a b = true)) :
    tied.Sublist (rankResults results) :=
  List.sublist_mergeSort (fun a b c => rankLE_trans a b c) rankLE_total htied hsub

/-- The ECMAScript WhiteSpace and LineTerminator code points, the set stripped by
`String.prototype.trim`. -/
def isJsWhitespace (c : Char) : Bool :=
  c.toNat = 0x9 || c.toNat = 0xA || c.toNat = 0xB || c.toNat = 0xC || c.toNat = 0xD ||
  c.toNat = 0x20 || c.toNat = 0xA0 || c.toNat = 0x1680 ||
  (0x2000 ≤ c.toNat && c.toNat ≤ 0x200A) ||
  c.toNat = 0x2028 || c.toNat = 0x2029 || c.toNat = 0x202F || c.toNat = 0x205F ||
  c.toNat = 0x3000 || c.toNat = 0xFEFF

/-- Strip leading whitespace. -/
def ltrimChars (l : List Char) : List Char := l.dropWhile isJsWhitespace

/-- Strip trailing whitespace. -/
def rtrimChars (l : List Char) : List Char := (l.reverse.dropWhile isJsWhitespace).reverse

/-- `String.prototype.trim` on the character sequence: strip whitespace at both ends. -/
def trimChars (l : List Char) : List Char := rtrimChars (ltrimChars l)

/-- `String.prototype.trim`. -/
def jsTrim (s : String) : String := ⟨trimChars s.data⟩

/-- `keywordsString.split(',')` (`src/unnamed/part_001:172`): every comma is a separator,
adjacent separators yield empty pieces, and the result is never empty (the empty string
splits to one empty piece). -/
def splitCommas : List Char → List (List Char)
  | [] => [[]]
  | c :: rest =>
    if c = ',' then [] :: splitCommas rest
    else
      match splitCommas rest with
      | [] => [[c]]
      | piece :: pieces => (c :: piece) :: pieces

/-- The Keyword List Normalizer (`src/unnamed/part_001:171-174`):
`keywordsString.split(',').map(k => k.trim()).filter(k => k.length > 0)`. -/
def parseKeywords (keywordsString : String) : List String :=
  (((splitCommas keywordsString.data).map
      (fun piece => (⟨trimChars piece⟩ : String)))).filter
    (fun keyword => 0 < keyword.length)

/-- `searchKeywords` (`src/unnamed/part_001:169-219`): normalize the raw string, short-circuit
with `[]` when no keyword remains, otherwise run the batch orchestrator and return the
ranked results. -/
def searchKeywords (keywordsString : String) (asoAnalyzer : Scorer)
    (concurrency : Nat := 3) : List KeywordResult :=
  let keywords := parseKeywords keywordsString
  if keywords.isEmpty then []
  else rankResults (processKeywordsBatch keywords asoAnalyzer concurrency)

theorem dropWhile_dropWhile (p : α → Bool) (l : List α) :
    (l.dropWhile p).dropWhile p = l.dropWhile p := by
  induction l with
  | nil => rfl
  | cons a t ih =>
    by_cases h : p a
    · simp [List.dropWhile_cons, h, ih]
    · simp [List.dropWhile_cons, h]

theorem ltrimChars_idem (l : List Char) : ltrimChars (ltrimChars l) = ltrimChars l :=
  dropWhile_dropWhile _ l

theorem rtrimChars_idem (l : List Char) : rtrimChars (rtrimChars l) = rtrimChars l := by
  unfold rtrimChars
  rw [List.reverse_reverse, dropWhile_dropWhile]

/-- Dropping a prefix from a list that ends in an element not satisfying `p` leaves a list
that still ends in that element. -/
theorem dropWhile_append_singleton (p : α → Bool) (a : α) (ha : p a = false) :
    ∀ xs : List α, ∃ ys, (xs ++ [a]).dropWhile p = ys ++ [a] := by
  intro xs
  induction xs with
  | nil => exact ⟨[], by simp [List.dropWhile_cons, ha]⟩
  | cons x t ih =>
    by_cases h : p x
    · obtain ⟨ys, hys⟩ := ih
      exact ⟨ys, by simp [List.dropWhile_cons, h, hys]⟩
    · exact ⟨x :: t, by simp [List.dropWhile_cons, h]⟩

theorem head_not_ws_of_ltrim_fixed (a : Char) (t : List Char)
    (h : ltrimChars (a :: t) = a :: t) : isJsWhitespace a = false := by
  by_contra hcon
  have ha : isJsWhitespace a = true := by
    cases hfa : isJsWhitespace a
    · exact absurd hfa hcon
    · rfl
  have h2 : ltrimChars (a :: t) = ltrimChars t := by
    simp [ltrimChars, List.dropWhile_cons, ha]
  have hlen : (ltrimChars t).length ≤ t.length :=
    (List.dropWhile_sublist isJsWhitespace (l := t)).length_le
  rw [h2] at h
  rw [h] at hlen
  simp at hlen

theorem ltrim_rtrim_of_ltrim_fixed (u : List Char) (hu : ltrimChars u = u) :
    ltrimChars (rtrimChars u) = rtrimChars u := by
  cases u with
  | nil => rfl
  | cons a t =>
    have ha : isJsWhitespace a = false := head_not_ws_of_ltrim_fixed a t hu
    have hrev : (a :: t).reverse = t.reverse ++ [a] := by simp
    obtain ⟨ys, hys⟩ := dropWhile_append_singleton isJsWhitespace a ha t.reverse
    have : rtrimChars (a :: t) = a :: ys.reverse := by
      unfold rtrimChars
      rw [hrev, hys]
      simp
    rw [this]
    simp [ltrimChars, List.dropWhile_cons, ha]

theorem trimChars_idem (l : List Char) : trimChars (trimChars l) = trimChars l := by
  unfold trimChars
  rw [ltrim_rtrim_of_ltrim_fixed (ltrimChars l) (ltrimChars_idem l), rtrimChars_idem]

theorem trimChars_eq_nil_iff (l : List Char) :
    trimChars l = [] ↔ ∀ c ∈ l, isJsWhitespace c = true := by
  unfold trimChars rtrimChars
  constructor
  · intro h c hc
    have hrev : (ltrimChars l).reverse.dropWhile isJsWhitespace = [] := by
      have := congrArg List.reverse h
      simpa using this
    have hall := List.dropWhile_eq_nil_iff.mp hrev
    by_cases hmem : c ∈ ltrimChars l
    · exact hall c (List.mem_reverse.mpr hmem)
    · -- c was stripped by ltrimChars, and everything stripped by dropWhile satisfies
      -- the predicate: split l as the dropped prefix plus the kept suffix.
      have hsplit : l.takeWhile isJsWhitespace ++ ltrimChars l = l := by
        simp [ltrimChars, List.takeWhile_append_dropWhile]
      rw [← hsplit] at hc
      rcases List.mem_append.mp hc with htk | hdr
      · exact List.mem_takeWhile_imp htk
      · exact absurd hdr hmem
  · intro h
    have h1 : ltrimChars l = [] := by
      unfold ltrimChars
      exact List.dropWhile_eq_nil_iff.mpr h
    rw [h1]
    rfl

theorem length_filterMap_eq_countP (f : α → Option β) :
    ∀ l : List α, (l.filterMap f).length = l.countP (fun a => (f a).isSome) := by
  intro l
  induction l with
  | nil => rfl
  | cons a t ih =>
    rw [List.filterMap_cons, List.countP_cons]
    cases hfa : f a <;> simp [hfa, ih]

/-- The digit-string value of the longest leading run of decimal digits, `none` when there
is no leading digit. -/
def leadingDigits (l : List Char) : Option Nat :=
  let ds := l.takeWhile Char.isDigit
  if ds.isEmpty then none
  else some (ds.foldl (fun acc c => 10 * acc + (c.toNat - 48)) 0)

/-- ECMAScript `parseInt(s)` restricted to decimal inputs: skip leading whitespace, read an
optional sign and then the longest leading digit run; `none` models `NaN`. (The
hexadecimal `0x` prefix form of `parseInt` is not modelled; the CLI concurrency argument
is a plain decimal.) -/
def jsParseInt (s : String) : Option Int :=
  match s.data.dropWhile isJsWhitespace with
  | '-' :: rest => (leadingDigits rest).map (fun n => -(n : Int))
  | '+' :: rest => (leadingDigits rest).map (fun n => (n : Int))
  | l => (leadingDigits l).map (fun n => (n : Int))

/-- Outcome of the CLI `-search` branch: both error outcomes print a message and call
`process.exit(1)` before `searchKeywords` is ever invoked; `run` means the process
proceeds to invoke `searchKeywords keywords concurrency`. -/
inductive SearchOutcome where
  | missingKeywords : SearchOutcome
  | invalidConcurrency : SearchOutcome
  | run : String → Int → SearchOutcome
deriving DecidableEq, Repr

/-- The `-search` CLI handler (`src/unnamed/part_001:274-298`): `arg1` is `args[1]` (the
keywords string), `arg2` is `args[2]` (the optional concurrency). The concurrency is
resolved by `parseInt(args[2]) || 3` — `NaN` and the falsy number `0` both fall back to
the default `3` — and then validated against the range `[1, 20]`. -/
def searchCommand (arg1 arg2 : Option String) : SearchOutcome :=
  match arg1 with
  | none => .missingKeywords
  | some keywordsString =>
    let concurrency : Int :=
      match arg2 with
      | none => 3
      | some s =>
        match jsParseInt s with
        | none => 3
        | some n => if n = 0 then 3 else n
    if concurrency < 1 ∨ concurrency > 20 then .invalidConcurrency
    else .run keywordsString concurrency

/-- App metadata returned by the external App Store scraper (title, description,
screenshot references); opaque payload for `collectAppData`. -/
structure AppData where
  title : String
  description : String
  screenshots : List String
deriving DecidableEq, Repr

/-- One entry of the similar-apps list; `collectAppData` only reads `.id`. -/
structure SimilarApp where
  id : Int
deriving DecidableEq, Repr

/-- The record returned by `collectAppData`. -/
structure CollectedAppData where
  appData : AppData
  similarApps : List AppData
  numericAppId : Int
deriving DecidableEq, Repr

/-- `collectAppData` (`src/unnamed/part_001:8-40`, and the same function in
`src/main.js:19-40`): validate the numeric app id, fetch the main app's data and the
similar-apps list (failures of these two propagate), then fetch data for the first three
similar apps, where a failed per-app fetch is logged and that app omitted
(`try { … push } catch { warn }` = `filterMap` of the successful fetches, preserving
order). -/
def collectAppData (getAppData : Int → Except String AppData)
    (getSimilarApps : Int → Except String (List SimilarApp))
    (numericAppId : Int) : Except String CollectedAppData :=
  if numericAppId ≤ 0 then .error "App ID must be a valid numeric value"
  else do
    let appData ← getAppData numericAppId
    let allSimilarApps ← getSimilarApps numericAppId
    let top3SimilarApps := allSimilarApps.take 3
    let similarAppsData := top3SimilarApps.filterMap
      (fun similarApp => (getAppData similarApp.id).toOption)
    .ok { appData := appData, similarApps := similarAppsData,
          numericAppId := numericAppId }

/-- Concrete scorer used by witnesses: the call for keyword `"b"` rejects, all other
calls resolve. -/
def demoScorer : Scorer := fun keyword =>
  if keyword = "b" then .error "network error"
  else .ok { keyword := keyword, trafficScore := 50, difficultyScore := 20,
             competitionLevel := "low", trafficLevel := "medium",
             recommendation := "targeted" }

/-- Concrete app-data oracle used by witnesses: the fetch for app `12` rejects, the
others resolve. -/
def demoGetAppData (appId : Int) : Except String AppData :=
  if appId = 11 then .ok { title := "A", description := "", screenshots := [] }
  else if appId = 12 then .error "Request failed"
  else if appId = 13 then .ok { title := "C", description := "", screenshots := [] }
  else .ok { title := "main", description := "", screenshots := [] }

/-- Concrete similar-apps oracle used by witnesses: four similar apps, of which only the
first three may be expanded. -/
def demoGetSimilarApps : Int → Except String (List SimilarApp) := fun _ =>
  .ok [{ id := 11 }, { id := 12 }, { id := 13 }, { id := 14 }]

/-- C1: the Batch Orchestrator returns exactly one `KeywordResult` per input keyword —
its output is the input list mapped through the per-keyword analysis — hence the output
length equals the input length and the i-th result is the analysis of the i-th input
keyword, for every scorer behaviour (any pattern of per-keyword failures). -/
theorem processKeywordsBatch_one_result_per_keyword
    (keywords : List String) (asoAnalyzer : Scorer) (batchSize : Nat)
    (hb : 1 ≤ batchSize) :
    processKeywordsBatch keywords asoAnalyzer batchSize =
      keywords.map (fun keyword => analyzeKeywordParallel keyword asoAnalyzer) ∧
    (processKeywordsBatch keywords asoAnalyzer batchSize).length = keywords.length ∧
    (∀ i : Nat, (processKeywordsBatch keywords asoAnalyzer batchSize)[i]? =
      (keywords[i]?).map (fun keyword => analyzeKeywordParallel keyword asoAnalyzer)) := by
  have hmap := processKeywordsBatch_eq_map keywords asoAnalyzer batchSize hb
  refine ⟨hmap, ?_, ?_⟩
  · rw [hmap, List.length_map]
  · intro i
    rw [hmap, List.getElem?_map]

/-- C1 witness: three keywords, width two, middle keyword failing — still three results. -/
theorem processKeywordsBatch_one_result_per_keyword_witness :
    1 ≤ 2 ∧ (processKeywordsBatch ["a", "b", "c"] demoScorer 2).length = 3 := by
  have h := processKeywordsBatch_one_result_per_keyword ["a", "b", "c"] demoScorer 2
    (by decide)
  exact ⟨by decide, by rw [h.2.1]; decide⟩

/-- C2: for `1 ≤ W ≤ 20` the orchestrator's loop partitions the keyword list into
`⌈L/W⌉` contiguous non-overlapping batches (their concatenation in processing order is
the input), every non-final batch has exactly `W` keywords and every batch is non-empty
with at most `W`, and the number of inter-batch delay suspensions is `⌈L/W⌉ − 1`
(in particular zero when `L ≤ W`). -/
theorem processKeywordsBatch_partition_and_delays
    (keywords : List String) (batchSize : Nat)
    (hb1 : 1 ≤ batchSize) (hb2 : batchSize ≤ 20) :
    (batches batchSize keywords).flatten = keywords ∧
    (batches batchSize keywords).length = (keywords.length + batchSize - 1) / batchSize ∧
    (∀ c ∈ (batches batchSize keywords).dropLast, c.length = batchSize) ∧
    (∀ c ∈ batches batchSize keywords, c ≠ [] ∧ c.length ≤ batchSize) ∧
    interBatchDelays batchSize keywords = (batches batchSize keywords).length - 1 ∧
    (keywords.length ≤ batchSize → interBatchDelays batchSize keywords = 0) := by
  refine ⟨batches_flatten _ _ hb1, batches_length _ _ hb1, batches_dropLast _ _ hb1,
    batches_mem _ _ hb1, interBatchDelays_eq _ _ hb1, ?_⟩
  intro hL
  rw [interBatchDelays_eq _ _ hb1, batches_length _ _ hb1]
  have hlt : (keywords.length + batchSize - 1) / batchSize < 2 := by
    rw [Nat.div_lt_iff_lt_mul (by omega)]
    omega
  omega

/-- C2 witness: seven keywords at width three — three batches and two delays. -/
theorem processKeywordsBatch_partition_and_delays_witness :
    (batches 3 ["k1", "k2", "k3", "k4", "k5", "k6", "k7"]).length = 3 ∧
    interBatchDelays 3 ["k1", "k2", "k3", "k4", "k5", "k6", "k7"] = 2 := by
  have h := processKeywordsBatch_partition_and_delays
    ["k1", "k2", "k3", "k4", "k5", "k6", "k7"] 3 (by decide) (by decide)
  refine ⟨by rw [h.2.1]; decide, ?_⟩
  rw [h.2.2.2.2.1, h.2.1]
  decide

/-- C3: a failed scoring call is caught locally and converted into the degraded result
with zero scores, `unknown` levels, the `analysis_failed` recommendation and the captured
message; the result at any position of the batch output depends only on the scorer's
behaviour on the keyword at that position, so one keyword's failure cannot abort or
change any other keyword's result in the same or later batches; and the scorer is invoked
exactly once per input keyword in issue order, so a failed call is never retried. -/
theorem analyzeKeywordParallel_failure_isolation
    (keyword : String) (asoAnalyzer : Scorer) (e : String)
    (hfail : asoAnalyzer keyword = .error e) :
    analyzeKeywordParallel keyword asoAnalyzer =
      { keyword := keyword, trafficScore := 0, difficultyScore := 0,
        competitionLevel := "unknown", trafficLevel := "unknown",
        recommendation := "analysis_failed", error := some e } ∧
    (∀ (keywords : List String) (batchSize : Nat) (other : Scorer) (i : Nat),
      1 ≤ batchSize →
      (∀ kw, keywords[i]? = some kw → other kw = asoAnalyzer kw) →
      (processKeywordsBatch keywords other batchSize)[i]? =
        (processKeywordsBatch keywords asoAnalyzer batchSize)[i]?) ∧
    (∀ (keywords : List String) (batchSize : Nat), 1 ≤ batchSize →
      scorerCallTrace keywords batchSize = keywords) := by
  refine ⟨?_, ?_, fun keywords batchSize hb => scorerCallTrace_eq keywords batchSize hb⟩
  · unfold analyzeKeywordParallel
    rw [hfail]
  · intro keywords batchSize other i hb hagree
    rw [processKeywordsBatch_eq_map _ _ _ hb, processKeywordsBatch_eq_map _ _ _ hb,
      List.getElem?_map, List.getElem?_map]
    cases hkw : keywords[i]? with
    | none => rfl
    | some kw =>
      have hsame : analyzeKeywordParallel kw other = analyzeKeywordParallel kw asoAnalyzer := by
        unfold analyzeKeywordParallel
        rw [hagree kw hkw]
      simp [hsame]

/-- C3 witness: the failing keyword `"b"` yields exactly the degraded placeholder. -/
theorem analyzeKeywordParallel_failure_isolation_witness :
    demoScorer "b" = .error "network error" ∧
    analyzeKeywordParallel "b" demoScorer =
      { keyword := "b", trafficScore := 0, difficultyScore := 0,
        competitionLevel := "unknown", trafficLevel := "unknown",
        recommendation := "analysis_failed", error := some "network error" } := by
  have h := analyzeKeywordParallel_failure_isolation "b" demoScorer "network error" rfl
  exact ⟨rfl, h.1⟩

/-- C4: the Result Ranker reorders its input (a permutation) so that consecutive results
satisfy traffic-score-descending with difficulty-score-ascending tie-break, and on the
spec's example it ranks b(70) before c(50/20) before a(50/30). -/
theorem rankResults_orders_traffic_desc_difficulty_asc (results : List KeywordResult) :
    (rankResults results).Perm results ∧
    List.Pairwise
      (fun a b => b.trafficScore < a.trafficScore ∨
        (b.trafficScore = a.trafficScore ∧ a.difficultyScore ≤ b.difficultyScore))
      (rankResults results) ∧
    rankResults
        [{ keyword := "a", trafficScore := 50, difficultyScore := 30,
           competitionLevel := "", trafficLevel := "", recommendation := "",
           error := none },
         { keyword := "b", trafficScore := 70, difficultyScore := 10,
           competitionLevel := "", trafficLevel := "", recommendation := "",
           error := none },
         { keyword := "c", trafficScore := 50, difficultyScore := 20,
           competitionLevel := "", trafficLevel := "", recommendation := "",
           error := none }] =
      [{ keyword := "b", trafficScore := 70, difficultyScore := 10,
         competitionLevel := "", trafficLevel := "", recommendation := "",
         error := none },
       { keyword := "c", trafficScore := 50, difficultyScore := 20,
         competitionLevel := "", trafficLevel := "", recommendation := "",
         error := none },
       { keyword := "a", trafficScore := 50, difficultyScore := 30,
         competitionLevel := "", trafficLevel := "", recommendation := "",
         error := none }] := by
  refine ⟨rankResults_perm results, ?_, ?_⟩
  · exact (rankResults_pairwise results).imp (fun hab => (rankLE_iff _ _).mp hab)
  · simp [rankResults, List.mergeSort, List.merge, rankLE, keywordCompare]

/-- C5: the Ranker is stable — any selection of results tied on both keys keeps its
relative input order — and idempotent: ranking an already-ranked sequence returns it
unchanged. -/
theorem rankResults_stable_and_idempotent (results tied : List KeywordResult)
    (hsub : tied.Sublist results)
    (htied : tied.Pairwise (fun a b =>
      a.trafficScore = b.trafficScore ∧ a.difficultyScore = b.difficultyScore)) :
    tied.Sublist (rankResults results) ∧
    rankResults (rankResults results) = rankResults results := by
  refine ⟨rankResults_stable results tied hsub (htied.imp ?_), rankResults_idem results⟩
  intro a b hab
  rw [rankLE_iff]
  omega

/-- C5 witness: two results tied on both keys, preceded by a higher-traffic result, stay
in their input order after ranking. -/
theorem rankResults_stable_and_idempotent_witness :
    ([{ keyword := "x", trafficScore := 50, difficultyScore := 20,
        competitionLevel := "", trafficLevel := "", recommendation := "",
        error := none },
      { keyword := "y", trafficScore := 50, difficultyScore := 20,
        competitionLevel := "", trafficLevel := "", recommendation := "",
        error := none }] : List KeywordResult).Sublist
      (rankResults
        [{ keyword := "z", trafficScore := 70, difficultyScore := 10,
           competitionLevel := "", trafficLevel := "", recommendation := "",
           error := none },
         { keyword := "x", trafficScore := 50, difficultyScore := 20,
           competitionLevel := "", trafficLevel := "", recommendation := "",
           error := none },
         { keyword := "y", trafficScore := 50, difficultyScore := 20,
           competitionLevel := "", trafficLevel := "", recommendation := "",
           error := none }]) := by
  have h := rankResults_stable_and_idempotent
    [{ keyword := "z", trafficScore := 70, difficultyScore := 10,
       competitionLevel := "", trafficLevel := "", recommendation := "",
       error := none },
     { keyword := "x", trafficScore := 50, difficultyScore := 20,
       competitionLevel := "", trafficLevel := "", recommendation := "",
       error := none },
     { keyword := "y", trafficScore := 50, difficultyScore := 20,
       competitionLevel := "", trafficLevel := "", recommendation := "",
       error := none }]
    [{ keyword := "x", trafficScore := 50, difficultyScore := 20,
       competitionLevel := "", trafficLevel := "", recommendation := "",
       error := none },
     { keyword := "y", trafficScore := 50, difficultyScore := 20,
       competitionLevel := "", trafficLevel := "", recommendation := "",
       error := none }]
    (by decide) (by decide)
  exact h.1

/-- C6 counterexample: the Ranker is not mutation-free on its input sequence — `sort`
reorders the caller's array in place, so after the call the input sequence is no longer
in its original order (and the returned sequence is that same array, not a fresh one). -/
theorem rankResultsCall_mutates_input :
    ¬ ((rankResultsCall
          [{ keyword := "a", trafficScore := 50, difficultyScore := 30,
             competitionLevel := "", trafficLevel := "", recommendation := "",
             error := none },
           { keyword := "b", trafficScore := 70, difficultyScore := 10,
             competitionLevel := "", trafficLevel := "", recommendation := "",
             error := none }]).2 =
        [{ keyword := "a", trafficScore := 50, difficultyScore := 30,
           competitionLevel := "", trafficLevel := "", recommendation := "",
           error := none },
         { keyword := "b", trafficScore := 70, difficultyScore := 10,
           competitionLevel := "", trafficLevel := "", recommendation := "",
           error := none }]) := by
  simp [rankResultsCall, rankResults, List.mergeSort, List.merge, rankLE, keywordCompare]

/-- C6 (amended): the Ranker is deterministic and element-pure — the sequence it returns
is a permutation of the input whose elements are the input's elements unchanged, only
reordered — but the reordering happens in place: after the call the caller's array holds
the ranked order and the returned sequence is that same array, not a fresh copy. -/
theorem rankResultsCall_pure_on_elements (results : List KeywordResult) :
    (rankResultsCall results).1 = (rankResultsCall results).2 ∧
    ((rankResultsCall results).2).Perm results :=
  ⟨rfl, rankResults_perm results⟩

/-- C7: evaluating the CLI `-search` handler. A concurrency argument of `"25"` (or any
other truthy out-of-range number) is rejected before any keyword analysis, but `"0"` is
swallowed by the falsy-default `parseInt(args[2]) || 3` and the search proceeds with the
default width 3 instead of failing validation. -/
theorem searchCommand_concurrency_validation :
    searchCommand (some "a,b") (some "0") = .run "a,b" 3 ∧
    searchCommand (some "a,b") (some "25") = .invalidConcurrency ∧
    searchCommand (some "a,b") (some "21") = .invalidConcurrency ∧
    searchCommand (some "a,b") (some "-5") = .invalidConcurrency ∧
    searchCommand (some "a,b") (some "5") = .run "a,b" 5 ∧
    searchCommand (some "a,b") none = .run "a,b" 3 ∧
    searchCommand none (some "5") = .missingKeywords := by
  refine ⟨rfl, rfl, rfl, rfl, rfl, rfl, rfl⟩

/-- C8: the Keyword List Normalizer splits on commas, trims each piece and discards the
pieces that trim to nothing: every output keyword is non-empty and free of surrounding
whitespace (trim-fixed), the output is a sublist of the trimmed pieces in original order
with duplicates preserved, the output length is the number of segments that are not
whitespace-only, the spec's example holds, and an all-invalid input yields the empty
sequence on which `searchKeywords` short-circuits to `[]` without invoking the
orchestrator. -/
theorem parseKeywords_normalizer_spec (keywordsString : String) :
    (∀ k ∈ parseKeywords keywordsString, k ≠ "" ∧ jsTrim k = k) ∧
    (parseKeywords keywordsString).Sublist
      ((splitCommas keywordsString.data).map
        (fun piece => (⟨trimChars piece⟩ : String))) ∧
    (parseKeywords keywordsString).length =
      (splitCommas keywordsString.data).countP
        (fun piece => !(trimChars piece).isEmpty) ∧
    (∀ piece : List Char,
      (trimChars piece).isEmpty = true ↔ ∀ c ∈ piece, isJsWhitespace c = true) ∧
    parseKeywords " a, b ,, c " = ["a", "b", "c"] ∧
    (∀ (asoAnalyzer : Scorer) (concurrency : Nat),
      parseKeywords keywordsString = [] →
      searchKeywords keywordsString asoAnalyzer concurrency = []) := by
  refine ⟨?_, ?_, ?_, ?_, ?_, ?_⟩
  · intro k hk
    unfold parseKeywords at hk
    obtain ⟨hmem, hpred⟩ := List.mem_filter.mp hk
    obtain ⟨piece, hpiece, rfl⟩ := List.mem_map.mp hmem
    constructor
    · intro hcon
      rw [hcon] at hpred
      simp at hpred
    · show (⟨trimChars (trimChars piece)⟩ : String) = ⟨trimChars piece⟩
      rw [trimChars_idem]
  · exact List.filter_sublist _
  · unfold parseKeywords
    rw [← List.countP_eq_length_filter, List.countP_map]
    apply List.countP_congr
    intro piece hmem
    show (decide (0 < (trimChars piece).length) = true) ↔
      ((!(trimChars piece).isEmpty) = true)
    rw [decide_eq_true_eq]
    cases htp : trimChars piece <;> simp [htp]
  · intro piece
    rw [List.isEmpty_iff]
    exact trimChars_eq_nil_iff piece
  · rfl
  · intro asoAnalyzer concurrency h
    simp [searchKeywords, h]

/-- C9: `collectAppData` expands exactly the first three similar apps in returned order;
each per-app fetch is isolated — a failed fetch merely omits that app, leaving the main
app and the other similar apps untouched — so the similar-apps result is the list of the
successful fetches among the first three, in order: its length is the number of
successful fetches, at most 3. -/
theorem collectAppData_similar_isolated
    (getAppData : Int → Except String AppData)
    (getSimilarApps : Int → Except String (List SimilarApp))
    (numericAppId : Int) (appData : AppData) (allSimilarApps : List SimilarApp)
    (hid : 0 < numericAppId)
    (hmain : getAppData numericAppId = .ok appData)
    (hsim : getSimilarApps numericAppId = .ok allSimilarApps) :
    collectAppData getAppData getSimilarApps numericAppId =
      .ok { appData := appData,
            similarApps := (allSimilarApps.take 3).filterMap
              (fun similarApp => (getAppData similarApp.id).toOption),
            numericAppId := numericAppId } ∧
    ((allSimilarApps.take 3).filterMap
        (fun similarApp => (getAppData similarApp.id).toOption)).length =
      (allSimilarApps.take 3).countP
        (fun similarApp => (getAppData similarApp.id).toOption.isSome) ∧
    ((allSimilarApps.take 3).filterMap
        (fun similarApp => (getAppData similarApp.id).toOption)).length ≤ 3 := by
  refine ⟨?_, length_filterMap_eq_countP _ _, ?_⟩
  · unfold collectAppData
    rw [if_neg (by omega), hmain, hsim]
    rfl
  · calc ((allSimilarApps.take 3).filterMap
            (fun similarApp => (getAppData similarApp.id).toOption)).length
        ≤ (allSimilarApps.take 3).length := List.length_filterMap_le _ _
      _ ≤ 3 := by rw [List.length_take]; exact min_le_left _ _

/-- C9 witness: one of three similar-app fetches fails — the result keeps exactly the
other two, in similarity order, with the main app unaffected. -/
theorem collectAppData_similar_isolated_witness :
    collectAppData demoGetAppData demoGetSimilarApps 1 =
      .ok { appData := { title := "main", description := "", screenshots := [] },
            similarApps := [{ title := "A", description := "", screenshots := [] },
                            { title := "C", description := "", screenshots := [] }],
            numericAppId := 1 } := by
  have h := collectAppData_similar_isolated demoGetAppData demoGetSimilarApps 1
    { title := "main", description := "", screenshots := [] }
    [{ id := 11 }, { id := 12 }, { id := 13 }, { id := 14 }]
    (by decide) rfl rfl
  rw [h.1]
  rfl

/-- C10: with `batchSize ≥ 1` the orchestrator's loop terminates — `keywords.length + 1`
iterations always suffice and produce exactly the `processKeywordsBatch` result, since
every iteration advances the index by `batchSize` — and the precondition is necessary:
with `batchSize = 0` the index never advances past a non-empty list, so no iteration
bound ever completes the loop. -/
theorem processKeywordsBatch_termination
    (keywords : List String) (asoAnalyzer : Scorer) (batchSize : Nat) :
    (1 ≤ batchSize →
      processLoopFuel keywords asoAnalyzer batchSize (keywords.length + 1) 0 [] =
        some (processKeywordsBatch keywords asoAnalyzer batchSize)) ∧
    (batchSize = 0 → keywords ≠ [] →
      ∀ (fuel : Nat) (acc : List KeywordResult),
        processLoopFuel keywords asoAnalyzer batchSize fuel 0 acc = none) := by
  constructor
  · intro hb
    obtain ⟨b, rfl⟩ : ∃ b, batchSize = b + 1 := ⟨batchSize - 1, by omega⟩
    have hfits : keywords.length ≤ 0 + keywords.length * (b + 1) := by
      simpa using Nat.le_mul_of_pos_right keywords.length (show 0 < b + 1 by omega)
    have h := processLoopFuel_spec keywords asoAnalyzer b keywords.length 0 [] hfits
    simpa using h
  · intro h0 hne fuel acc
    subst h0
    exact processLoopFuel_zero_width keywords asoAnalyzer hne fuel acc

/-- C10 witness: three keywords terminate within four iterations at width 2, while at
width 0 five iterations (or any number) do not complete. -/
theorem processKeywordsBatch_termination_witness :
    processLoopFuel ["a", "b", "c"] demoScorer 2 4 0 [] =
      some (processKeywordsBatch ["a", "b", "c"] demoScorer 2) ∧
    processLoopFuel ["a", "b", "c"] demoScorer 0 5 0 [] = none := by
  have h2 := processKeywordsBatch_termination ["a", "b", "c"] demoScorer 2
  have h0 := processKeywordsBatch_termination ["a", "b", "c"] demoScorer 0
  exact ⟨h2.1 (by decide), h0.2 rfl (by decide) 5 []⟩

end AppStoreKw
